import Mathlib

/-!
Verification development for `collect_graphs.py`, a line-oriented filter that
reads the textual dump of a dependency graph, groups nodes into nested module
scopes, and re-serializes the tree as nested cluster blocks.

The Python source is embedded shallowly:
* each regular expression is translated into a deterministic character-list
  parser with the same match semantics on the strings it is applied to;
* Python `dict`s (insertion ordered, unique keys) become association lists
  built by an insert-or-overwrite operation;
* fallible constructors (`ValueError` from tuple unpacking or `dict(...)`,
  `KeyError` from `dict.pop`) return `Except String`;
* the mutually recursive scope tree (`Graph` objects holding a dict of child
  `Graph`s) becomes a nested inductive type, and the cyclic back references
  `node.graph` / `edge.graph` (only ever used to read `.name` during
  rendering) are stored as the referenced graph's name.

All definitions are written with structural recursion (lists, or an explicit
fuel bounded by the input length) so that every concrete run evaluates inside
the kernel.
-/

/-! ## Basic string helpers (List Char based, so everything reduces) -/

/-- Python `str.strip()`: remove whitespace from both ends. -/
def pyStrip (s : String) : String :=
  String.mk (((s.data.dropWhile Char.isWhitespace).reverse.dropWhile Char.isWhitespace).reverse)

/-- Worker for `pySplitSeq`: scan left to right, cutting at each leftmost
occurrence of the (non-empty) separator, exactly like Python `str.split(sep)`.
The fuel is the length of the scanned list; each step consumes at least one
character, so the fuel never runs out on the initial call. -/
def splitSeqAux (sep : List Char) : Nat → List Char → List Char → List (List Char)
  | _, [], acc => [acc.reverse]
  | 0, cs, acc => [acc.reverse ++ cs]
  | fuel + 1, c :: rest, acc =>
    if sep.isPrefixOf (c :: rest) then
      acc.reverse :: splitSeqAux sep fuel ((c :: rest).drop sep.length) []
    else
      splitSeqAux sep fuel rest (c :: acc)

/-- Python `s.split(sep)` for a non-empty separator string. -/
def pySplitSeq (sep : String) (s : String) : List String :=
  (splitSeqAux sep.data (s.data.length + 1) s.data []).map String.mk

/-- Strip leading space characters (only `' '`, as in the regex `' *'`). -/
def stripSpacesLeft (cs : List Char) : List Char := cs.dropWhile (fun c => c == ' ')

/-- Strip trailing space characters. -/
def stripSpacesRight (cs : List Char) : List Char := (cs.reverse.dropWhile (fun c => c == ' ')).reverse

/-- Adjust the pieces produced by splitting on a separator character `c` so
that the result equals `re.split(' *c *', s)`: the separator regex also
swallows the spaces directly before and after each separator occurrence.
The boolean marks whether the current piece is the first one (its leading
spaces are kept); the last piece keeps its trailing spaces. -/
def reSplitAdjust : Bool → List (List Char) → List (List Char)
  | _, [] => []
  | isFirst, [p] => [if isFirst then p else stripSpacesLeft p]
  | isFirst, p :: rest =>
    stripSpacesRight (if isFirst then p else stripSpacesLeft p) :: reSplitAdjust false rest

/-- Python `re.split(' *x *', s)` for a separator character `x`
(`attribute_sep` is `' *, *'` and `key_value_sep` is `' *= *'`). -/
def reSplitSpace (sep : Char) (s : String) : List String :=
  (reSplitAdjust true (splitSeqAux [sep] (s.data.length + 1) s.data [])).map String.mk

/-- Python `','.join(...)` / `'\n'.join(...)`. -/
def joinSep (sep : String) : List String → String
  | [] => ""
  | [x] => x
  | x :: xs => x ++ sep ++ joinSep sep xs

/-! ## The line filter: `unwanted_patterns` and `wanted_line`

Each compiled pattern `p` is used through `p.match(line)`, i.e. anchored at
the start of the line.  A leading `^.*` (or `.*`) lets the significant part
start at any position of the line that is not preceded by a newline (regex
`.` does not match `'\n'`).  `matchFromAnyStart check` therefore tries
`check` at every such position. -/

def matchFromAnyStart (check : List Char → Bool) : List Char → Bool
  | [] => check []
  | c :: rest => check (c :: rest) || (c != '\n' && matchFromAnyStart check rest)

/-- Shape ` -> "\[[^]]*\] <target...>`: an arrow into a quoted bracketed
identifier whose bracket content is arbitrary (no `]`) and whose remainder
starts with `target` (which begins with the closing `]`). -/
def bracketArrowCheck (target : List Char) (cs : List Char) : Bool :=
  " -> \"[".data.isPrefixOf cs &&
  (let rest := cs.drop 6
   let inner := rest.takeWhile (fun c => c != ']')
   target.isPrefixOf (rest.drop inner.length))

/-- The tuple `unwanted_patterns`, in source order:
1. `^.* -> "\[[^]]*\] provider\.aws`   (aws provider link)
2. `^.* -> "\[[^]]*\] var\.default_tags`
3. `.*var\.tags.*`
4. `^.*] provider\.aws \(close\)`
5. `^.*] meta\.count-boundary \(EachMode fixup\)`
6. `^.*] root" -> ` -/
def unwanted_patterns : List (String → Bool) :=
  [ fun s => matchFromAnyStart (bracketArrowCheck "] provider.aws".data) s.data,
    fun s => matchFromAnyStart (bracketArrowCheck "] var.default_tags".data) s.data,
    fun s => matchFromAnyStart ("var.tags".data.isPrefixOf) s.data,
    fun s => matchFromAnyStart ("] provider.aws (close)".data.isPrefixOf) s.data,
    fun s => matchFromAnyStart ("] meta.count-boundary (EachMode fixup)".data.isPrefixOf) s.data,
    fun s => matchFromAnyStart ("] root\" -> ".data.isPrefixOf) s.data ]

/-- `wanted_line`: reject a line matching any unwanted pattern. -/
def wanted_line (line : String) : Bool :=
  if unwanted_patterns.any (fun p => p line) then false else true

/-! ## Line shapes (the class-level regexes, all used with `fullmatch`) -/

/-- The two capture groups of `Node.node_line`. -/
structure NodeMatch where
  name : String
  attributes : String
deriving Repr, DecidableEq

/-- The part `(?P<name>[^"]*)" \[(?P<attributes>[^]]*)\]` of the node-shaped
regexes, matched against the rest of the line after `"[root] ` (and, for
`module_line`, after the module blocks).  Both starred groups are forced:
`name` must stop at the first `"`, `attributes` at the first `]`, and
`fullmatch` requires the line to end right after the closing `]`. -/
def nodeShapeRest (cs : List Char) : Option (String × String) :=
  let nm := cs.takeWhile (fun c => c != '"')
  let rest := cs.drop nm.length
  if "\" [".data.isPrefixOf rest then
    let rest2 := rest.drop 3
    let attrs := rest2.takeWhile (fun c => c != ']')
    let rest3 := rest2.drop attrs.length
    if rest3 = [']'] then some (String.mk nm, String.mk attrs) else none
  else none

/-- `Node.node_line.fullmatch`: `"\[root\] (?P<name>[^"]*)" \[(?P<attributes>[^]]*)\]`. -/
def Node.valid_line (line : String) : Option NodeMatch :=
  let cs := line.data
  if "\"[root] ".data.isPrefixOf cs then
    (nodeShapeRest (cs.drop 8)).map (fun p => NodeMatch.mk p.1 p.2)
  else none

/-- `Variable.node_line.fullmatch`: same shape with `name` of the form
`var\.[^"]*`, i.e. a generic node whose identifier starts with `var.`. -/
def Variable.valid_line (line : String) : Option NodeMatch :=
  match Node.valid_line line with
  | some m => if "var.".data.isPrefixOf m.name.data then some m else none
  | none => none

/-- The two capture groups of `Edge.edge_line`. -/
structure EdgeMatch where
  from_name : String
  to_name : String
deriving Repr, DecidableEq

/-- `Edge.edge_line.fullmatch`:
`"\[root\] (?P<from_name>[^"]*)" -> "\[root\] (?P<to_name>[^"]*)"`. -/
def Edge.valid_line (line : String) : Option EdgeMatch :=
  let cs := line.data
  if "\"[root] ".data.isPrefixOf cs then
    let rest := cs.drop 8
    let fn := rest.takeWhile (fun c => c != '"')
    let rest2 := rest.drop fn.length
    if "\" -> \"[root] ".data.isPrefixOf rest2 then
      let rest3 := rest2.drop 13
      let tn := rest3.takeWhile (fun c => c != '"')
      let rest4 := rest3.drop tn.length
      if rest4 = ['"'] then some (EdgeMatch.mk (String.mk fn) (String.mk tn)) else none
    else none
  else none

/-- One block `module\.[^.]*\.` of the module prefix: the literal `module.`,
a dot-free (possibly empty) segment, and the closing dot.  The block extent
is forced: the segment must stop at the first dot. -/
def moduleBlock (cs : List Char) : Option (List Char × List Char) :=
  if "module.".data.isPrefixOf cs then
    let rest := cs.drop 7
    let seg := rest.takeWhile (fun c => c != '.')
    match rest.drop seg.length with
    | '.' :: rest2 => some ("module.".data ++ seg ++ ['.'], rest2)
    | _ => none
  else none

/-- All non-empty repetition counts of `module\.[^.]*\.` starting at `cs`:
entry `k` (0-based `k-1`) holds the text matched by `k` blocks and the
remainder.  Block boundaries are deterministic, so this chain is exactly the
set of alternatives the regex engine would try.  Each block consumes at
least 8 characters, so fuel = input length suffices. -/
def moduleChain : Nat → List Char → List (List Char × List Char)
  | 0, _ => []
  | fuel + 1, cs =>
    match moduleBlock cs with
    | some (b, rest) => (b, rest) :: (moduleChain fuel rest).map (fun p => (b ++ p.1, p.2))
    | none => []

/-- The three capture groups of `Graph.module_line`. -/
structure ModuleMatch where
  module_name : String
  name : String
  attributes : String
deriving Repr, DecidableEq

/-- `Graph.module_line.fullmatch`:
`"\[root\] (?P<module_name>(module\.[^.]*\.)+)(?P<name>[^"]*)" \[(?P<attributes>[^]]*)\]`.
The greedy `+` with backtracking selects the largest block count whose
remainder still completes the node shape. -/
def Graph.module_line (line : String) : Option ModuleMatch :=
  let cs := line.data
  if "\"[root] ".data.isPrefixOf cs then
    let rest := cs.drop 8
    ((moduleChain rest.length rest).reverse).findSome? (fun p =>
      (nodeShapeRest p.2).map (fun q => ModuleMatch.mk (String.mk p.1) q.1 q.2))
  else none

/-- `list(filter(None, module_path[7:-1].split(".module.")))`: drop the
leading `module.` and the trailing `.`, split on `.module.`, and drop empty
segments. -/
def module_names_of (module_path : String) : List String :=
  (pySplitSeq ".module." (String.mk ((module_path.data.drop 7).dropLast))).filter
    (fun s => s != "")

/-! ## Attribute parsing (`Node._parse_attributes`) -/

/-- Python dict assignment `m[k] = v`: overwrite in place if the key exists
(keys are unique by construction), else append. -/
def dictInsert (m : List (String × String)) (k v : String) : List (String × String) :=
  if m.any (fun p => p.1 == k) then
    m.map (fun p => if p.1 == k then (p.1, v) else p)
  else m ++ [(k, v)]

/-- Python `dict(iterable)`: every element must be a key/value pair of
exactly two components, otherwise `ValueError`. -/
def dictOfPairs (acc : List (String × String)) :
    List (List String) → Except String (List (String × String))
  | [] => .ok acc
  | [k, v] :: rest => dictOfPairs (dictInsert acc k v) rest
  | _ :: _ => .error "ValueError: dictionary update sequence element is not of length 2"

/-- `Node._parse_attributes`: split the bracket content on `' *, *'`, each
pair on `' *= *'`, and build a dict. -/
def parse_attributes (line : String) : Except String (List (String × String)) :=
  dictOfPairs [] ((reSplitSpace ',' line).map (fun pair => reSplitSpace '=' pair))

/-- `attribute_map.pop('label')`: `KeyError` if absent, otherwise the value
and the map without the entry. -/
def popLabel (m : List (String × String)) :
    Except String (String × List (String × String)) :=
  match m.find? (fun p => p.1 == "label") with
  | some p => .ok (p.2, m.filter (fun q => q.1 != "label"))
  | none => .error "KeyError: label"

/-! ## Nodes -/

/-- A constructed node.  `Graph.from_file` only ever instantiates `Variable`
and `Resource`, both of which carry the full `Resource` field set;
`graphName` is the `name` of the `Graph` object passed as the `graph`
back-reference (always the root graph). -/
structure RNode where
  name : String
  graphName : String
  label : String
  attributes : List (String × String)
  resource : String
  key : String
  is_data : Bool
  module_name : Option String
deriving Repr, DecidableEq

/-- `Resource.colors`. -/
def Resource.colors : List (String × String) :=
  [ ("iam_role_policy_attachment", "orange1"),
    ("iam_policy_document", "orange1"),
    ("iam_policy", "orange2"),
    ("iam_role_policy", "orange2"),
    ("sqs_queue_policy", "orange2"),
    ("iam_role", "orange3"),
    ("security_group", "orange4"),
    ("s3_bucket_public_access_block", "orange2"),
    ("route", "green1"),
    ("route_table", "green2"),
    ("vpc", "green4"),
    ("vpc_endpoint", "green2"),
    ("internet_gateway", "green2"),
    ("subnet", "green3"),
    ("elasticache_subnet_group", "green3"),
    ("ecs_service", "blue1"),
    ("ecs_task_definition", "blue2"),
    ("ecs_cluster", "blue4"),
    ("ecr_repository", "blue4"),
    ("instance", "blue4"),
    ("lambda_function", "blue2"),
    ("s3_bucket", "red1"),
    ("elasticache_replication_group", "red2"),
    ("dynamodb_table", "red3"),
    ("cloudwatch_log_group", "purple1"),
    ("cloudwatch_event_target", "purple1"),
    ("cloudwatch_event_rule", "purple1") ]

/-- `Resource.color`: `self.colors.get(resource_name, 'gray40')`. -/
def Resource.color (resource_name : String) : String :=
  ((Resource.colors.find? (fun p => p.1 == resource_name)).map (fun p => p.2)).getD "gray40"

/-- `Resource.__init__` (which first runs `Node.__init__`): parse the
attributes, pop the mandatory label, then post-process the label:
`label[1:-1].split('.')`, unpack the last two components into
`resource`/`key` (`ValueError` when fewer than two), strip an `aws_` prefix,
set `is_data` and, for four-component labels, `module_name`. -/
def Resource.init (name attributesStr graphName : String) : Except String RNode :=
  match parse_attributes attributesStr with
  | .error e => .error e
  | .ok amap =>
    match popLabel amap with
    | .error e => .error e
    | .ok (label, attrs) =>
      let label_parts := pySplitSeq "." (String.mk ((label.data.drop 1).dropLast))
      match label_parts.reverse with
      | key :: resource0 :: _ =>
        let resource :=
          if "aws_".data.isPrefixOf resource0.data then String.mk (resource0.data.drop 4)
          else resource0
        .ok (RNode.mk name graphName label attrs resource key
          (label_parts.length == 3 && label_parts.headD "" == "data")
          (if label_parts.length == 4 then some ((label_parts.get? 1).getD "") else none))
      | _ => .error "ValueError: not enough values to unpack (expected 2)"

/-- `','.join('='.join(p) for p in self.attributes.items())`. -/
def attributes_as_str (attrs : List (String × String)) : String :=
  joinSep "," (attrs.map (fun p => p.1 ++ "=" ++ p.2))

/-- `Resource.label_formatted`. -/
def RNode.label_formatted (n : RNode) : String :=
  let type_indicator :=
    if n.is_data then "<font color=\"gray60\" point-size=\"9\">data.</font>" else ""
  "<" ++ "<table border=\"0\">" ++ "<tr><td>" ++ type_indicator ++
  "<font color=\"" ++ Resource.color n.resource ++ "\" point-size=\"9\">" ++
  n.resource ++ "</font>" ++ "</td></tr>" ++ "<tr><td>" ++ n.key ++ "</td></tr>" ++
  "</table>>"

/-- `Resource.__str__` (the rendering used for every constructed node). -/
def RNode.str (n : RNode) : String :=
  "\"[" ++ n.graphName ++ "] " ++ n.name ++ "\" [label=" ++ n.label_formatted ++ "," ++
  attributes_as_str n.attributes ++ "]"

/-- `Node.__str__`, the base-class rendering with the raw label (overridden
by `Resource.__str__` for every node `from_file` constructs). -/
def RNode.base_str (n : RNode) : String :=
  "\"[" ++ n.graphName ++ "] " ++ n.name ++ "\" [label=" ++ n.label ++ "," ++
  attributes_as_str n.attributes ++ "]"

/-- Which node class accepted the line (`for node_class in [Variable, Resource]`). -/
inductive NodeKind where
  | variableKind
  | resourceKind
deriving Repr, DecidableEq

/-- The classification loop of `Graph.from_file`: `Variable` is tried before
`Resource` (whose matcher is the generic inherited `Node.node_line`). -/
def classify_node (line : String) : Option (NodeKind × NodeMatch) :=
  match Variable.valid_line line with
  | some m => some (NodeKind.variableKind, m)
  | none =>
    match Node.valid_line line with
    | some m => some (NodeKind.resourceKind, m)
    | none => none

/-! ## Edges -/

/-- An `Edge`; `graphName` is the name of the graph it was declared under. -/
structure Edge where
  from_name : String
  to_name : String
  graphName : String
deriving Repr, DecidableEq

/-- `Edge.__str__`. -/
def Edge.str (e : Edge) : String :=
  "\"[" ++ e.graphName ++ "] " ++ e.from_name ++ "\":e -> \"[" ++ e.graphName ++ "] " ++
  e.to_name ++ "\":w"

/-! ## The scope tree -/

/-- A `Graph` object: name, optional label, node list, edge list and the
insertion-ordered dict of child modules. -/
inductive Graph where
  | mk (name : String) (label : Option String) (nodes : List RNode) (edges : List Edge)
      (modules : List (String × Graph)) : Graph

def Graph.name : Graph → String
  | .mk n _ _ _ _ => n

def Graph.label : Graph → Option String
  | .mk _ l _ _ _ => l

def Graph.nodes : Graph → List RNode
  | .mk _ _ ns _ _ => ns

def Graph.edges : Graph → List Edge
  | .mk _ _ _ es _ => es

def Graph.modules : Graph → List (String × Graph)
  | .mk _ _ _ _ ms => ms

/-- `Graph(name=...)`: a fresh graph with empty collections. -/
def Graph.init (name : String) (label : Option String := none) : Graph :=
  .mk name label [] [] []

/-- `graph.edges.append(edge)`. -/
def Graph.appendEdge : Graph → Edge → Graph
  | .mk n l ns es ms, e => .mk n l ns (es ++ [e]) ms

/-- Replace the (unique) dict entry with key `k` by applying `f` to its
value; Python `module.modules[sub]` assignment/mutation touches exactly the
first (only) entry with that key. -/
def replaceFirst (ms : List (String × Graph)) (k : String) (f : Graph → Graph) :
    List (String × Graph) :=
  match ms with
  | [] => []
  | p :: rest => if p.1 == k then (p.1, f p.2) :: rest else p :: replaceFirst rest k f

/-- The scope walk of `Graph.from_file` combined with the final append: walk
`path` from `g`, creating each missing child as
`Graph(name=rootName + ":" + sub, label=sub)` (note: `rootName` is the name
of the *root* graph of the file, not of the parent scope), and append the
node — when one was classified — to the final scope reached. -/
def Graph.insertNode (g : Graph) (rootName : String) (path : List String)
    (node : Option RNode) : Graph :=
  match g, path with
  | .mk n l ns es ms, [] =>
    .mk n l (match node with | some nd => ns ++ [nd] | none => ns) es ms
  | .mk n l ns es ms, sub :: rest =>
    if (ms.find? (fun p => p.1 == sub)).isSome then
      .mk n l ns es (replaceFirst ms sub (fun m => m.insertNode rootName rest node))
    else
      .mk n l ns es
        (ms ++ [(sub, (Graph.init (rootName ++ ":" ++ sub) (some sub)).insertNode
          rootName rest node)])

/-- Follow an existing chain of child scopes. -/
def Graph.scopeAt : Graph → List String → Option Graph
  | g, [] => some g
  | .mk _ _ _ _ ms, sub :: rest =>
    match ms.find? (fun p => p.1 == sub) with
    | some p => p.2.scopeAt rest
    | none => none

mutual

/-- Total number of `Graph` objects in the tree (the root plus every scope
ever created for it). -/
def Graph.countScopes : Graph → Nat
  | .mk _ _ _ _ ms => 1 + Graph.countScopesList ms

def Graph.countScopesList : List (String × Graph) → Nat
  | [] => 0
  | (_, m) :: rest => m.countScopes + Graph.countScopesList rest

end

mutual

/-- Every node held anywhere in the tree (own nodes first, then the child
scopes' nodes in module order). -/
def Graph.allNodes : Graph → List RNode
  | .mk _ _ ns _ ms => ns ++ Graph.allNodesList ms

def Graph.allNodesList : List (String × Graph) → List RNode
  | [] => []
  | (_, m) :: rest => m.allNodes ++ Graph.allNodesList rest

end

/-- Python `self.label or self.name`: `None` and the empty string fall back
to the name. -/
def pyOr (label : Option String) (name : String) : String :=
  match label with
  | none => name
  | some l => if l = "" then name else l

mutual

/-- `Graph.__str__`: header, label line, then child-scope blocks, own nodes
and own edges, the three sections separated by blank lines. -/
def Graph.str : Graph → String
  | .mk name label nodes edges modules =>
    joinSep "\n"
      [ "subgraph \"cluster_" ++ name ++ "\" \x7b",
        "\tlabel = \"" ++ pyOr label name ++ "\";",
        "",
        "\t" ++ joinSep "\n\t" (Graph.strList modules),
        "",
        "\t" ++ joinSep "\n\t" (nodes.map RNode.str),
        "",
        "\t" ++ joinSep "\n\t" (edges.map Edge.str),
        "\x7d" ]

def Graph.strList : List (String × Graph) → List String
  | [] => []
  | (_, m) :: rest => Graph.str m :: Graph.strList rest

end

/-! ## The per-line processing of `Graph.from_file` -/

/-- The module path the walk will follow for a line: the parsed
`module_name` group when `module_line` matches, empty otherwise. -/
def linePath (line : String) : List String :=
  match Graph.module_line line with
  | some mm => module_names_of mm.module_name
  | none => []

/-- The body of the `for line in filecontent[4:-2]` loop: strip the line;
skip it when unwanted; append an edge when the edge shape matches; otherwise
walk the module path (creating scopes) and, when a node class accepts the
line, construct the node (with the *root* graph as back reference) and
append it to the final scope of the walk.  A constructor failure aborts the
whole file. -/
def processLine (g : Graph) (rawLine : String) : Except String Graph :=
  let line := pyStrip rawLine
  if wanted_line line = false then .ok g
  else
    match Edge.valid_line line with
    | some m => .ok (g.appendEdge (Edge.mk m.from_name m.to_name g.name))
    | none =>
      let path : List String := linePath line
      match classify_node line with
      | some km =>
        match Resource.init km.2.name km.2.attributes g.name with
        | .ok node => .ok (g.insertNode g.name path (some node))
        | .error e => .error e
      | none => .ok (g.insertNode g.name path none)

/-- `Graph.from_file`, starting from the already-extracted body lines. -/
def Graph.fromLines (root : String) (lines : List String) : Except String Graph :=
  lines.foldlM processLine (Graph.init root)

/-- `Graph.from_file` on the raw file content: `filecontent[4:-2]` drops the
4-line preamble and the 2-line postamble. -/
def Graph.fromFileContent (root : String) (filecontent : List String) :
    Except String Graph :=
  Graph.fromLines root (((filecontent.drop 4).dropLast).dropLast)

/-! ## Helper lemmas about the scope tree operations -/

theorem Graph.insertNode_name (g : Graph) (r : String) (p : List String) (n : Option RNode) :
    (g.insertNode r p n).name = g.name := by
  cases g with
  | mk nm l ns es ms =>
    cases p with
    | nil => simp [Graph.insertNode, Graph.name]
    | cons a rest =>
      simp only [Graph.insertNode]
      split <;> simp [Graph.name]

theorem Graph.insertNode_label (g : Graph) (r : String) (p : List String) (n : Option RNode) :
    (g.insertNode r p n).label = g.label := by
  cases g with
  | mk nm l ns es ms =>
    cases p with
    | nil => simp [Graph.insertNode, Graph.label]
    | cons a rest =>
      simp only [Graph.insertNode]
      split <;> simp [Graph.label]

theorem Graph.countScopesList_append (xs ys : List (String × Graph)) :
    Graph.countScopesList (xs ++ ys) = Graph.countScopesList xs + Graph.countScopesList ys := by
  induction xs with
  | nil => simp [Graph.countScopesList]
  | cons p rest ih =>
    cases p with
    | mk k m => simp [Graph.countScopesList, ih]; omega

theorem Graph.allNodesList_append (xs ys : List (String × Graph)) :
    Graph.allNodesList (xs ++ ys) = Graph.allNodesList xs ++ Graph.allNodesList ys := by
  induction xs with
  | nil => simp [Graph.allNodesList]
  | cons p rest ih =>
    cases p with
    | mk k m => simp [Graph.allNodesList, ih]

/-- Decompose a successful `find?` on a module dict into the prefix of
non-matching entries, the found entry, and the rest. -/
theorem find?_decomp {ms : List (String × Graph)} {k : String} {q : String × Graph}
    (h : ms.find? (fun p => p.1 == k) = some q) :
    ∃ pre post, ms = pre ++ q :: post ∧ (∀ r ∈ pre, (r.1 == k) = false) ∧ (q.1 == k) = true := by
  induction ms with
  | nil => simp [List.find?] at h
  | cons p rest ih =>
    rw [List.find?] at h
    by_cases hp : (p.1 == k) = true
    · rw [hp] at h
      simp at h
      exact ⟨[], rest, by simp [h], by simp, h ▸ hp⟩
    · rw [Bool.not_eq_true] at hp
      rw [hp] at h
      obtain ⟨pre, post, hms, hpre, hq⟩ := ih h
      exact ⟨p :: pre, post, by simp [hms], by
        intro r hr
        rcases List.mem_cons.mp hr with h1 | h2
        · exact h1 ▸ hp
        · exact hpre r h2, hq⟩

theorem replaceFirst_on_decomp (pre post : List (String × Graph)) (q : String × Graph)
    (k : String) (f : Graph → Graph)
    (hpre : ∀ r ∈ pre, (r.1 == k) = false) (hq : (q.1 == k) = true) :
    replaceFirst (pre ++ q :: post) k f = pre ++ (q.1, f q.2) :: post := by
  induction pre with
  | nil => simp [replaceFirst, hq]
  | cons p rest ih =>
    have hp := hpre p (by simp)
    simp only [List.cons_append, replaceFirst, hp]
    simp only [Bool.false_eq_true, if_false, List.append_eq]
    rw [ih (fun r hr => hpre r (by simp [hr]))]

theorem find?_append_of_none {pre rest : List (String × Graph)} {k : String}
    (hpre : ∀ r ∈ pre, (r.1 == k) = false) :
    (pre ++ rest).find? (fun p => p.1 == k) = rest.find? (fun p => p.1 == k) := by
  induction pre with
  | nil => simp
  | cons p ps ih =>
    have hp := hpre p (by simp)
    simp only [List.cons_append, List.find?, hp]
    exact ih (fun r hr => hpre r (by simp [hr]))

/-- The final append of the walk, as a standalone operation. -/
def Graph.withNodeAppended : Graph → Option RNode → Graph
  | .mk n l ns es ms, node =>
    .mk n l (match node with | some nd => ns ++ [nd] | none => ns) es ms

theorem Graph.countScopes_mk (n : String) (l : Option String) (ns : List RNode)
    (es : List Edge) (ms : List (String × Graph)) :
    (Graph.mk n l ns es ms).countScopes = 1 + Graph.countScopesList ms := by
  simp [Graph.countScopes]

/-- Walking an already existing path never creates a scope, and appends the
node to exactly the scope already stored at that path. -/
theorem Graph.insert_seen (p : List String) :
    ∀ (g : Graph) (r : String) (nO : Option RNode) (m : Graph),
      g.scopeAt p = some m →
      (g.insertNode r p nO).countScopes = g.countScopes ∧
      (g.insertNode r p nO).scopeAt p = some (m.withNodeAppended nO) := by
  induction p with
  | nil =>
    intro g r nO m h
    cases g with
    | mk n l ns es ms =>
      simp [Graph.scopeAt] at h
      subst h
      constructor
      · cases nO <;> simp [Graph.insertNode, Graph.countScopes]
      · cases nO <;> simp [Graph.insertNode, Graph.scopeAt, Graph.withNodeAppended]
  | cons a rest ih =>
    intro g r nO m h
    cases g with
    | mk n l ns es ms =>
      rw [Graph.scopeAt] at h
      cases hfind : ms.find? (fun p => p.1 == a) with
      | none => rw [hfind] at h; simp at h
      | some q =>
        rw [hfind] at h
        simp only at h
        obtain ⟨pre, post, hms, hpre, hq⟩ := find?_decomp hfind
        obtain ⟨ihc, ihs⟩ := ih q.2 r nO m h
        rw [Graph.insertNode]
        simp only [hfind, Option.isSome_some, if_true]
        rw [hms, replaceFirst_on_decomp pre post q a _ hpre hq]
        constructor
        · rw [Graph.countScopes_mk, Graph.countScopes_mk,
            Graph.countScopesList_append, Graph.countScopesList_append]
          simp only [Graph.countScopesList]
          omega
        · rw [Graph.scopeAt]
          have hfind2 : (pre ++ (q.1, q.2.insertNode r rest nO) :: post).find?
              (fun p => p.1 == a) = some (q.1, q.2.insertNode r rest nO) := by
            rw [find?_append_of_none hpre, List.find?]
            simp only [hq]
          rw [hfind2]
          exact ihs

theorem Graph.scopeAt_nil (g : Graph) : g.scopeAt [] = some g := by
  cases g with
  | mk n l ns es ms => rfl

theorem find?_eq_none_false {ms : List (String × Graph)} {k : String}
    (h : ms.find? (fun p => p.1 == k) = none) : ∀ r ∈ ms, (r.1 == k) = false := by
  intro r hr
  have hx := List.find?_eq_none.mp h r hr
  simpa using hx

theorem Graph.init_scopeAt_ne_nil (nm : String) (lb : Option String) (q : List String)
    (h : q ≠ []) : (Graph.init nm lb).scopeAt q = none := by
  cases q with
  | nil => exact absurd rfl h
  | cons a rest => simp [Graph.init, Graph.scopeAt, List.find?]

/-- Walking a two-level path whose first segment is absent creates exactly
the two scopes A and B (B nested in A) and puts the node into B. -/
theorem Graph.insert_fresh_two (g : Graph) (r A B : String) (nO : Option RNode)
    (h : g.modules.find? (fun p => p.1 == A) = none) :
    (g.insertNode r [A, B] nO).countScopes = g.countScopes + 2 ∧
    ((g.insertNode r [A, B] nO).scopeAt [A, B]).map Graph.nodes = some nO.toList := by
  cases g with
  | mk n l ns es ms =>
    simp only [Graph.modules] at h
    rw [Graph.insertNode]
    simp only [h, Option.isSome_none, Bool.false_eq_true, if_false]
    simp only [Graph.init]
    rw [Graph.insertNode]
    simp only [List.find?, Option.isSome_none, Bool.false_eq_true, if_false,
      List.nil_append]
    constructor
    · rw [Graph.countScopes_mk, Graph.countScopes_mk, Graph.countScopesList_append]
      have : ∀ nd : Option RNode, Graph.countScopesList
          [(A, Graph.mk (r ++ ":" ++ A) (some A) [] []
            [(B, (Graph.init (r ++ ":" ++ B) (some B)).insertNode r [] nd)])] = 2 := by
        intro nd
        cases nd <;> simp [Graph.countScopesList, Graph.countScopes, Graph.init, Graph.insertNode]
      rw [this]
      omega
    · have hms : ∀ rr ∈ ms, (rr.1 == A) = false := find?_eq_none_false h
      rw [Graph.scopeAt]
      rw [find?_append_of_none hms, List.find?]
      simp only [beq_self_eq_true]
      rw [Graph.scopeAt]
      simp only [List.find?, beq_self_eq_true]
      cases nO <;> simp [Graph.insertNode, Graph.init, Graph.scopeAt, Graph.nodes, Option.toList]

/-- Any scope freshly created during a walk is named
`<root-name>:<its own submodule segment>` and labelled with the segment. -/
theorem Graph.insert_created_named (p : List String) :
    ∀ (g : Graph) (r : String) (path : List String) (nO : Option RNode) (x : String)
      (rest2 : List String),
      path = p ++ x :: rest2 →
      g.scopeAt (p ++ [x]) = none →
      ((g.insertNode r path nO).scopeAt (p ++ [x])).map (fun m => (m.name, m.label)) =
        some (r ++ ":" ++ x, some x) := by
  induction p with
  | nil =>
    intro g r path nO x rest2 hpath hnone
    cases g with
    | mk n l ns es ms =>
      subst hpath
      simp only [List.nil_append] at hnone ⊢
      cases hfind : ms.find? (fun p => p.1 == x) with
      | some q =>
        have hx : (Graph.mk n l ns es ms).scopeAt [x] = some q.2 := by
          rw [Graph.scopeAt, hfind]
          exact Graph.scopeAt_nil q.2
        rw [hx] at hnone
        exact Option.noConfusion hnone
      | none =>
        rw [Graph.insertNode]
        simp only [hfind, Option.isSome_none, Bool.false_eq_true, if_false]
        rw [Graph.scopeAt]
        rw [find?_append_of_none (find?_eq_none_false hfind), List.find?]
        simp only [beq_self_eq_true]
        rw [Graph.scopeAt]
        simp only [Option.map_some']
        rw [Graph.insertNode_name, Graph.insertNode_label]
        simp [Graph.init, Graph.name, Graph.label]
  | cons a p' ih =>
    intro g r path nO x rest2 hpath hnone
    cases g with
    | mk n l ns es ms =>
      subst hpath
      simp only [List.cons_append] at hnone ⊢
      rw [Graph.scopeAt] at hnone
      cases hfind : ms.find? (fun p => p.1 == a) with
      | some q =>
        rw [hfind] at hnone
        simp only at hnone
        rw [Graph.insertNode]
        simp only [hfind, Option.isSome_some, if_true]
        obtain ⟨pre, post, hms, hpre, hq⟩ := find?_decomp hfind
        rw [hms, replaceFirst_on_decomp pre post q a _ hpre hq]
        rw [Graph.scopeAt]
        have hfind2 : (pre ++ (q.1, q.2.insertNode r (p' ++ x :: rest2) nO) :: post).find?
            (fun p => p.1 == a) = some (q.1, q.2.insertNode r (p' ++ x :: rest2) nO) := by
          rw [find?_append_of_none hpre, List.find?]
          simp only [hq]
        rw [hfind2]
        exact ih q.2 r (p' ++ x :: rest2) nO x rest2 rfl hnone
      | none =>
        rw [Graph.insertNode]
        simp only [hfind, Option.isSome_none, Bool.false_eq_true, if_false]
        rw [Graph.scopeAt]
        rw [find?_append_of_none (find?_eq_none_false hfind), List.find?]
        simp only [beq_self_eq_true]
        exact ih (Graph.init (r ++ ":" ++ a) (some a)) r (p' ++ x :: rest2) nO x rest2 rfl
          (Graph.init_scopeAt_ne_nil _ _ _ (by simp))

/-- The walk only ever adds the given node (if any) to the multiset of all
nodes in the tree: created scopes start empty and the target scope gets the
node appended. -/
theorem Graph.insert_allNodes_perm (p : List String) :
    ∀ (g : Graph) (r : String) (nO : Option RNode),
      ((g.insertNode r p nO).allNodes).Perm (g.allNodes ++ nO.toList) := by
  induction p with
  | nil =>
    intro g r nO
    cases g with
    | mk n l ns es ms =>
      cases nO with
      | none => simp [Graph.insertNode, Graph.allNodes, Option.toList]
      | some nd =>
        simp only [Graph.insertNode, Graph.allNodes, Option.toList, List.append_assoc]
        exact List.Perm.append_left ns List.perm_append_comm
  | cons s rest ih =>
    intro g r nO
    cases g with
    | mk n l ns es ms =>
      rw [Graph.insertNode]
      by_cases hfind : (ms.find? (fun p => p.1 == s)).isSome = true
      · rw [if_pos hfind]
        obtain ⟨q, hq⟩ := Option.isSome_iff_exists.mp hfind
        obtain ⟨pre, post, hms, hpre, hqk⟩ := find?_decomp hq
        rw [hms, replaceFirst_on_decomp pre post q s _ hpre hqk]
        simp only [Graph.allNodes, Graph.allNodesList_append, Graph.allNodesList]
        have hcnt := fun (a : RNode) => (ih q.2 r nO).count_eq a
        refine List.perm_iff_count.mpr (fun a => ?_)
        simp only [List.count_append] at hcnt ⊢
        have hca := hcnt a
        omega
      · rw [if_neg hfind]
        simp only [Graph.allNodes, Graph.allNodesList_append, Graph.allNodesList]
        have hcnt := fun (a : RNode) =>
          (ih (Graph.init (r ++ ":" ++ s) (some s)) r nO).count_eq a
        refine List.perm_iff_count.mpr (fun a => ?_)
        simp only [Graph.init, Graph.allNodes, Graph.allNodesList, List.count_append,
          List.count_nil] at hcnt ⊢
        have hca := hcnt a
        omega

/-! ## Lemmas about line classification and per-line processing -/

theorem nodeShapeRest_yields_bracket {cs : List Char} {q : String × String}
    (h : nodeShapeRest cs = some q) :
    "\" [".data.isPrefixOf (cs.drop ((cs.takeWhile (fun c => c != '"')).length)) = true := by
  simp only [nodeShapeRest] at h
  by_cases h2 : ("\" [".data.isPrefixOf
      (cs.drop ((cs.takeWhile (fun c => c != '"')).length))) = true
  · exact h2
  · rw [if_neg h2] at h
    exact Option.noConfusion h

theorem bracket_arrow_conflict {rest : List Char}
    (h1 : "\" [".data.isPrefixOf rest = true)
    (h2 : "\" -> \"[root] ".data.isPrefixOf rest = true) : False := by
  obtain ⟨t1, ht1⟩ := List.isPrefixOf_iff_prefix.mp h1
  obtain ⟨t2, ht2⟩ := List.isPrefixOf_iff_prefix.mp h2
  rw [← ht1] at ht2
  simp at ht2

/-- A line that fullmatches the generic node shape cannot also fullmatch the
edge shape: after the quoted identifier the node shape requires `" [` where
the edge shape requires `" -> `. -/
theorem node_edge_exclusive {line : String} {m : NodeMatch}
    (h : Node.valid_line line = some m) : Edge.valid_line line = none := by
  simp only [Node.valid_line] at h
  simp only [Edge.valid_line]
  by_cases hpre : ("\"[root] ".data.isPrefixOf line.data) = true
  · rw [if_pos hpre] at h
    rw [if_pos hpre]
    cases hns : nodeShapeRest (line.data.drop 8) with
    | none => rw [hns] at h; exact Option.noConfusion h
    | some q =>
      have h2 := nodeShapeRest_yields_bracket hns
      have h3 : ("\" -> \"[root] ".data.isPrefixOf
          ((line.data.drop 8).drop
            (((line.data.drop 8).takeWhile (fun c => c != '"')).length))) = false := by
        by_contra hcon
        rw [Bool.not_eq_false] at hcon
        exact bracket_arrow_conflict h2 hcon
      simp only [h3, Bool.false_eq_true, if_false]
  · rw [if_neg hpre]

theorem classify_of_node {line : String} {m : NodeMatch}
    (h : Node.valid_line line = some m) :
    classify_node line = some (NodeKind.variableKind, m) ∨
    classify_node line = some (NodeKind.resourceKind, m) := by
  simp only [classify_node, Variable.valid_line, h]
  by_cases hv : ("var.".data.isPrefixOf m.name.data) = true
  · rw [if_pos hv]
    left
    rfl
  · rw [if_neg hv]
    right
    rfl

theorem processLine_unwanted (g : Graph) (line : String)
    (h : wanted_line (pyStrip line) = false) : processLine g line = .ok g := by
  simp [processLine, h]

theorem processLine_edge (g : Graph) (line : String) (m : EdgeMatch)
    (hw : wanted_line (pyStrip line) = true)
    (he : Edge.valid_line (pyStrip line) = some m) :
    processLine g line = .ok (g.appendEdge (Edge.mk m.from_name m.to_name g.name)) := by
  simp [processLine, hw, he]

theorem Resource.init_name_graphName {nm attrs gn : String} {n : RNode}
    (h : Resource.init nm attrs gn = .ok n) : n.name = nm ∧ n.graphName = gn := by
  simp only [Resource.init] at h
  split at h
  · exact Except.noConfusion h
  · split at h
    · exact Except.noConfusion h
    · split at h
      · cases h
        exact ⟨rfl, rfl⟩
      · exact Except.noConfusion h

/-- A wanted line that fullmatches the generic node shape is always accepted
by a node class (the `Resource` matcher *is* the generic shape, and
`Variable` only narrows it), so processing it either aborts on a malformed
constructor or appends exactly that node. -/
theorem processLine_node (g : Graph) (line : String) (m : NodeMatch)
    (hw : wanted_line (pyStrip line) = true)
    (hn : Node.valid_line (pyStrip line) = some m) :
    (∃ e, processLine g line = .error e) ∨
    (∃ node, Resource.init m.name m.attributes g.name = .ok node ∧
      processLine g line = .ok (g.insertNode g.name (linePath (pyStrip line)) (some node))) := by
  have hedge := node_edge_exclusive hn
  have hclass := classify_of_node hn
  cases hres : Resource.init m.name m.attributes g.name with
  | error e =>
    left
    refine ⟨e, ?_⟩
    rcases hclass with hc | hc <;> simp [processLine, hw, hedge, hc, hres]
  | ok node =>
    right
    refine ⟨node, rfl, ?_⟩
    rcases hclass with hc | hc <;> simp [processLine, hw, hedge, hc, hres]

theorem Graph.appendEdge_allNodes (g : Graph) (e : Edge) :
    (g.appendEdge e).allNodes = g.allNodes := by
  cases g with
  | mk n l ns es ms => rfl

theorem Graph.appendEdge_name (g : Graph) (e : Edge) :
    (g.appendEdge e).name = g.name := by
  cases g with
  | mk n l ns es ms => rfl

theorem processLine_preserves_name (g g' : Graph) (line : String)
    (h : processLine g line = .ok g') : g'.name = g.name := by
  simp only [processLine] at h
  split at h
  · cases h
    rfl
  · split at h
    · cases h
      exact Graph.appendEdge_name _ _
    · split at h
      · split at h
        · cases h
          exact Graph.insertNode_name _ _ _ _
        · exact Except.noConfusion h
      · cases h
        exact Graph.insertNode_name _ _ _ _

theorem processLine_allNodes_from (g g' : Graph) (line : String)
    (h : processLine g line = .ok g') :
    ∀ x ∈ g'.allNodes, x ∈ g.allNodes ∨ x.graphName = g.name := by
  simp only [processLine] at h
  split at h
  · cases h
    exact fun x hx => Or.inl hx
  · split at h
    · cases h
      intro x hx
      rw [Graph.appendEdge_allNodes] at hx
      exact Or.inl hx
    · split at h
      · split at h
        case _ node hres =>
          cases h
          intro x hx
          have hperm := Graph.insert_allNodes_perm (linePath (pyStrip line)) g g.name (some node)
          have hx2 := hperm.mem_iff.mp hx
          rw [List.mem_append] at hx2
          rcases hx2 with h1 | h2
          · exact Or.inl h1
          · right
            simp [Option.toList] at h2
            subst h2
            exact (Resource.init_name_graphName hres).2
        case _ => exact Except.noConfusion h
      · cases h
        intro x hx
        have hperm := Graph.insert_allNodes_perm (linePath (pyStrip line)) g g.name none
        have hx2 := hperm.mem_iff.mp hx
        simp [Option.toList] at hx2
        exact Or.inl hx2

/-- Every node stored anywhere in a tree built by `from_file` carries the
*root* graph as its back reference: `from_match(match, graph=graph)` always
passes the root `graph` object, regardless of the scope the node is then
appended to. -/
theorem fromLines_graphName_inv (root : String) :
    ∀ (lines : List String) (g0 g : Graph), g0.name = root →
      (∀ x ∈ g0.allNodes, x.graphName = root) →
      lines.foldlM processLine g0 = .ok g →
      ∀ x ∈ g.allNodes, x.graphName = root := by
  intro lines
  induction lines with
  | nil =>
    intro g0 g h1 h2 h3
    simp only [List.foldlM_nil, pure, Except.pure] at h3
    cases h3
    exact h2
  | cons l ls ih =>
    intro g0 g h1 h2 h3
    rw [List.foldlM_cons] at h3
    cases hpl : processLine g0 l with
    | error e =>
      rw [hpl] at h3
      simp only [bind, Except.bind] at h3
      exact Except.noConfusion h3
    | ok g1 =>
      rw [hpl] at h3
      simp only [bind, Except.bind] at h3
      refine ih g1 g ?_ ?_ h3
      · rw [processLine_preserves_name g0 g1 l hpl, h1]
      · intro x hx
        rcases processLine_allNodes_from g0 g1 l hpl x hx with hmem | hname
        · exact h2 x hmem
        · rw [hname, h1]

/-! ## Lemmas about malformed input -/

theorem dictOfPairs_ok_shapes :
    ∀ (ps : List (List String)) (acc m : List (String × String)),
      dictOfPairs acc ps = .ok m → ∀ pr ∈ ps, pr.length = 2 := by
  intro ps
  induction ps with
  | nil =>
    intro acc m h pr hpr
    exact absurd hpr (List.not_mem_nil pr)
  | cons pr0 rest ih =>
    intro acc m h pr hpr
    rcases pr0 with _ | ⟨k, tail⟩
    · simp only [dictOfPairs] at h
      exact Except.noConfusion h
    · rcases tail with _ | ⟨v, tail2⟩
      · simp only [dictOfPairs] at h
        exact Except.noConfusion h
      · rcases tail2 with _ | ⟨w, tail3⟩
        · simp only [dictOfPairs] at h
          rcases List.mem_cons.mp hpr with h1 | h2
          · rw [h1]
            rfl
          · exact ih _ m h pr h2
        · simp only [dictOfPairs] at h
          exact Except.noConfusion h

theorem popLabel_ok_hasLabel {m : List (String × String)}
    {res : String × List (String × String)} (h : popLabel m = .ok res) :
    m.any (fun p => p.1 == "label") = true := by
  simp only [popLabel] at h
  cases hf : m.find? (fun p => p.1 == "label") with
  | none =>
    rw [hf] at h
    exact Except.noConfusion h
  | some q =>
    have hmem := List.mem_of_find?_eq_some hf
    have hprop := List.find?_some hf
    exact List.any_eq_true.mpr ⟨q, hmem, hprop⟩

/-- A successfully constructed node certifies that its inputs were well
formed: the attribute pairs all split into exactly two components, the
mandatory `label` key was present, and the label had at least two
dot-separated components. -/
theorem Resource.init_ok_wellformed {nm attrs gn : String} {n : RNode}
    (h : Resource.init nm attrs gn = .ok n) :
    (∀ pr ∈ (reSplitSpace ',' attrs).map (fun pair => reSplitSpace '=' pair),
        pr.length = 2) ∧
    (∃ m, parse_attributes attrs = .ok m ∧ m.any (fun p => p.1 == "label") = true) ∧
    2 ≤ (pySplitSeq "." (String.mk ((n.label.data.drop 1).dropLast))).length := by
  simp only [Resource.init] at h
  split at h
  case _ => exact Except.noConfusion h
  case _ amap hparse =>
    split at h
    case _ => exact Except.noConfusion h
    case _ pr label attrs2 hpop =>
      split at h
      case _ key r0 t hrev =>
        cases h
        refine ⟨?_, ⟨amap, hparse, ?_⟩, ?_⟩
        · exact dictOfPairs_ok_shapes _ [] amap hparse
        · exact popLabel_ok_hasLabel hpop
        · have hlen : (pySplitSeq "." (String.mk ((label.data.drop 1).dropLast))).length =
              (key :: r0 :: t).length := by
            rw [← hrev, List.length_reverse]
          simp only [RNode.label]
          simp only [List.length_cons] at hlen
          omega
      case _ => exact Except.noConfusion h

/-! ## Edge parsing round trip -/

theorem takeWhile_append_cons {p : Char → Bool} (xs : List Char) (y : Char)
    (ys : List Char) (hxs : ∀ x ∈ xs, p x = true) (hy : p y = false) :
    (xs ++ y :: ys).takeWhile p = xs := by
  induction xs with
  | nil => simp [List.takeWhile_cons, hy]
  | cons a rest ih =>
    have ha := hxs a (by simp)
    simp [List.takeWhile_cons, ha, ih (fun x hx => hxs x (by simp [hx]))]

/-- For quote-free endpoint identifiers, the edge regex extracts exactly the
two raw substrings between the bracketed anchors. -/
theorem Edge.valid_line_roundtrip (A B : String)
    (hA : ∀ c ∈ A.data, (c != '"') = true) (hB : ∀ c ∈ B.data, (c != '"') = true) :
    Edge.valid_line ("\"[root] " ++ A ++ "\" -> \"[root] " ++ B ++ "\"") =
      some (EdgeMatch.mk A B) := by
  have hdata : ("\"[root] " ++ A ++ "\" -> \"[root] " ++ B ++ "\"").data =
      "\"[root] ".data ++ (A.data ++ ('"' :: (" -> \"[root] ".data ++ (B.data ++ ['"'])))) := by
    simp [String.data_append]
  simp only [Edge.valid_line, hdata]
  have hpre : ("\"[root] ".data.isPrefixOf
      ("\"[root] ".data ++ (A.data ++ ('"' :: (" -> \"[root] ".data ++ (B.data ++ ['"'])))))) =
        true :=
    List.isPrefixOf_iff_prefix.mpr ⟨_, rfl⟩
  rw [if_pos hpre]
  rw [List.drop_left' (by rfl)]
  rw [takeWhile_append_cons A.data '"' _ hA (by rfl)]
  rw [List.drop_left' (rfl)]
  have hmid : ("\" -> \"[root] ".data.isPrefixOf
      ('"' :: (" -> \"[root] ".data ++ (B.data ++ ['"'])))) = true := by
    refine List.isPrefixOf_iff_prefix.mpr ⟨B.data ++ ['"'], ?_⟩
    simp
  rw [if_pos hmid]
  have hdrop13 : ('"' :: (" -> \"[root] ".data ++ (B.data ++ ['"']))).drop 13 =
      B.data ++ ['"'] := by
    have : ('"' :: (" -> \"[root] ".data ++ (B.data ++ ['"']))) =
        ("\" -> \"[root] ".data) ++ (B.data ++ ['"']) := by simp
    rw [this]
    exact List.drop_left' (by rfl)
  rw [hdrop13]
  have hB2 : (B.data ++ ['"']).takeWhile (fun c => c != '"') = B.data := by
    have := takeWhile_append_cons B.data '"' [] hB (by rfl)
    simpa using this
  rw [hB2]
  rw [List.drop_left' (rfl)]
  simp

/-! ## Concrete inputs used by the claim theorems -/

/-- First §8 scenario line: a plain resource node. -/
def scenarioLine1 : String :=
  "\"[root] aws_s3_bucket.bucket\" [label = \"aws_s3_bucket.bucket\", shape = \"box\"]"

/-- Second §8 scenario line: a node nested one module level deep. -/
def scenarioLine2 : String :=
  "\"[root] module.net.aws_vpc.main\" [label = \"module.net.aws_vpc.main\", shape = \"box\"]"

/-- Third §8 scenario line: the edge between the two. -/
def scenarioLine3 : String :=
  "\"[root] aws_s3_bucket.bucket\" -> \"[root] module.net.aws_vpc.main\""

/-- The node built from `scenarioLine1` in a file rooted at `main`. -/
def scenarioNode1 : RNode :=
  RNode.mk "aws_s3_bucket.bucket" "main" "\"aws_s3_bucket.bucket\"" [("shape", "\"box\"")]
    "s3_bucket" "bucket" false none

/-- The node built from `scenarioLine2` in a file rooted at `main`. -/
def scenarioNode2 : RNode :=
  RNode.mk "module.net.aws_vpc.main" "main" "\"module.net.aws_vpc.main\""
    [("shape", "\"box\"")] "vpc" "main" false (some "net")

/-- The edge built from `scenarioLine3` in a file rooted at `main`. -/
def scenarioEdge : Edge :=
  Edge.mk "aws_s3_bucket.bucket" "module.net.aws_vpc.main" "main"

/-- The tree produced by the §8 scenario. -/
def scenarioGraph : Graph :=
  Graph.mk "main" none [scenarioNode1] [scenarioEdge]
    [("net", Graph.mk "main:net" (some "net") [scenarioNode2] [] [])]

/-- A sample node used to instantiate hypotheses in witnesses. -/
def sampleNode : RNode :=
  RNode.mk "aws_s3_bucket.b" "R" "\"aws_s3_bucket.b\"" [] "s3_bucket" "b" false none

/-! ## Claim C1 -/

/-- C1: a node whose identifier has no module prefix is appended directly to
the root scope's node list (preserving input order and leaving modules,
edges and the scope count untouched); walking a fresh two-level prefix
`module.A.module.B.` creates exactly two scopes, with the node landing in
the inner one; and re-walking an already-seen path creates zero additional
scopes and appends the node to the identical previously created scope. -/
theorem c1_scope_resolver_walk :
    (∀ (g : Graph) (r : String) (n : RNode),
      (g.insertNode r [] (some n)).nodes = g.nodes ++ [n] ∧
      (g.insertNode r [] (some n)).modules = g.modules ∧
      (g.insertNode r [] (some n)).edges = g.edges ∧
      (g.insertNode r [] (some n)).countScopes = g.countScopes) ∧
    (∀ (g : Graph) (r A B : String) (nO : Option RNode),
      g.modules.find? (fun p => p.1 == A) = none →
      (g.insertNode r [A, B] nO).countScopes = g.countScopes + 2 ∧
      ((g.insertNode r [A, B] nO).scopeAt [A, B]).map Graph.nodes = some nO.toList) ∧
    (∀ (g : Graph) (r : String) (path : List String) (nO : Option RNode) (m : Graph),
      g.scopeAt path = some m →
      (g.insertNode r path nO).countScopes = g.countScopes ∧
      (g.insertNode r path nO).scopeAt path = some (m.withNodeAppended nO)) := by
  refine ⟨?_, ?_, ?_⟩
  · intro g r n
    cases g with
    | mk nm l ns es ms => exact ⟨rfl, rfl, rfl, rfl⟩
  · intro g r A B nO h
    exact Graph.insert_fresh_two g r A B nO h
  · intro g r path nO m h
    exact Graph.insert_seen path g r nO m h

theorem c1_scope_resolver_walk_witness :
    ((Graph.init "R").insertNode "R" [] (some sampleNode)).nodes = [] ++ [sampleNode] ∧
    ((Graph.init "R").insertNode "R" ["A", "B"] (some sampleNode)).countScopes = 3 ∧
    (((Graph.init "R").insertNode "R" ["A", "B"] (some sampleNode)).insertNode "R" ["A", "B"]
        (some sampleNode)).countScopes = 3 := by
  refine ⟨?_, ?_, ?_⟩
  · exact (c1_scope_resolver_walk.1 (Graph.init "R") "R" sampleNode).1
  · have h := (c1_scope_resolver_walk.2.1 (Graph.init "R") "R" "A" "B" (some sampleNode) rfl).1
    rw [h]
    rfl
  · have h := (c1_scope_resolver_walk.2.2
      ((Graph.init "R").insertNode "R" ["A", "B"] (some sampleNode)) "R" ["A", "B"]
      (some sampleNode)
      (Graph.mk "R:B" (some "B") [sampleNode] [] []) rfl).1
    rw [h]
    rfl

/-! ## Claim C2 -/

/-- C2 counterexample: walking the fresh two-level prefix
`module.A.module.B.` from an empty root named `R` creates the inner scope
with name `R:B`, not `R:A:B`: the source builds every created scope's name
from the *root* graph's name (`graph.name + ":" + sub_module_name`), not
from the immediate parent scope's name as the claim states. -/
theorem c2_scope_name_counterexample :
    (((Graph.init "R").insertNode "R" ["A", "B"] none).scopeAt ["A", "B"]).map Graph.name =
      some "R:B" ∧
    ¬ ((((Graph.init "R").insertNode "R" ["A", "B"] none).scopeAt ["A", "B"]).map Graph.name =
      some ("R:A" ++ ":" ++ "B")) := by
  constructor
  · rfl
  · decide

/-- C2 amended: whenever the walk creates a missing child scope, the new
scope's name is the *root* graph's name concatenated with the separator and
the local submodule name (so a depth-two child under root R via modules A
then B is named `R:B`), and its label is the local submodule name. -/
theorem c2_scope_name_amended (g : Graph) (r : String) (path : List String)
    (nO : Option RNode) (p : List String) (x : String) (rest2 : List String)
    (hpath : path = p ++ x :: rest2) (hmiss : g.scopeAt (p ++ [x]) = none) :
    ((g.insertNode r path nO).scopeAt (p ++ [x])).map (fun m => (m.name, m.label)) =
      some (r ++ ":" ++ x, some x) :=
  Graph.insert_created_named p g r path nO x rest2 hpath hmiss

theorem c2_scope_name_amended_witness :
    (((Graph.init "R").insertNode "R" ["A", "B"] none).scopeAt (["A"] ++ ["B"])).map
        (fun m => (m.name, m.label)) = some ("R" ++ ":" ++ "B", some "B") :=
  c2_scope_name_amended (Graph.init "R") "R" ["A", "B"] none ["A"] "B" [] rfl rfl

/-! ## Claim C3 -/

/-- C3 counterexample: processing `scenarioLine2` in a file rooted at
`main` stores the vpc node inside the nested scope named `main:net`, yet
the serialized node line carries `[main]` — the *root* graph's name — in
its quoted identifier, not `[main:net]`, the name of the scope that holds
the node.  `from_match(match, graph=graph)` always passes the root graph as
the node's back reference. -/
theorem c3_node_scope_name_counterexample :
    Graph.fromLines "main" [scenarioLine2] =
      .ok (Graph.mk "main" none [] []
        [("net", Graph.mk "main:net" (some "net") [scenarioNode2] [] [])]) ∧
    RNode.str scenarioNode2 =
      "\"[main] module.net.aws_vpc.main\" [label=<<table border=\"0\"><tr><td><font color=\"green4\" point-size=\"9\">vpc</font></td></tr><tr><td>main</td></tr></table>>,shape=\"box\"]" ∧
    ¬ (RNode.str scenarioNode2 =
      "\"[main:net] module.net.aws_vpc.main\" [label=<<table border=\"0\"><tr><td><font color=\"green4\" point-size=\"9\">vpc</font></td></tr><tr><td>main</td></tr></table>>,shape=\"box\"]") := by
  refine ⟨rfl, rfl, ?_⟩
  decide

/-- C3 amended: the serialized node line is the quoted identifier
`[<g>] <node-name>` where `<g>` is the name of the graph passed when the
node was constructed — always the file's *root* graph, also for nodes held
by nested module scopes — followed by a bracketed list whose first entry is
`label=<rendered-label>` and whose remaining attributes keep their stored
order. -/
theorem c3_node_rendering_amended :
    (∀ n : RNode, RNode.str n =
      "\"[" ++ n.graphName ++ "] " ++ n.name ++ "\" [label=" ++ n.label_formatted ++ "," ++
      attributes_as_str n.attributes ++ "]") ∧
    (∀ (root : String) (lines : List String) (g : Graph),
      Graph.fromLines root lines = .ok g → ∀ x ∈ g.allNodes, x.graphName = root) := by
  constructor
  · intro n
    rfl
  · intro root lines g h x hx
    refine fromLines_graphName_inv root lines (Graph.init root) g rfl ?_ h x hx
    intro y hy
    simp [Graph.init, Graph.allNodes, Graph.allNodesList] at hy

theorem c3_node_rendering_amended_witness : scenarioNode2.graphName = "main" :=
  c3_node_rendering_amended.2 "main" [scenarioLine2]
    (Graph.mk "main" none [] []
      [("net", Graph.mk "main:net" (some "net") [scenarioNode2] [] [])]) rfl
    scenarioNode2 (by decide)

/-! ## Claim C4 -/

/-- C4: resource attribute post-processing: `label[1:-1]` is split on dots;
the last two components become `resource`/`key` with a literal `aws_`
prefix stripped from the type; `is_data` holds exactly for a 3-component
split starting with `data`; `module_name` is recorded (as the second
component) exactly for a 4-component split.  The two synthetic labels of
the spec behave as stated. -/
theorem c4_resource_label_postprocessing :
    (∀ (nm attrs gn : String) (n : RNode), Resource.init nm attrs gn = .ok n →
      (let parts := pySplitSeq "." (String.mk ((n.label.data.drop 1).dropLast))
       n.key = parts.reverse.headD "" ∧
       n.resource = (if "aws_".data.isPrefixOf (parts.reverse.tail.headD "").data
          then String.mk ((parts.reverse.tail.headD "").data.drop 4)
          else parts.reverse.tail.headD "") ∧
       (n.is_data = true ↔ parts.length = 3 ∧ parts.headD "" = "data") ∧
       n.module_name = (if parts.length = 4 then some ((parts.get? 1).getD "") else none))) ∧
    (Resource.init "x" "label = \"aws_s3_bucket.my_bucket\"" "R").toOption =
      some (RNode.mk "x" "R" "\"aws_s3_bucket.my_bucket\"" [] "s3_bucket" "my_bucket"
        false none) ∧
    (Resource.init "y" "label = \"data.aws_vpc.main\"" "R").toOption =
      some (RNode.mk "y" "R" "\"data.aws_vpc.main\"" [] "vpc" "main" true none) := by
  refine ⟨?_, rfl, rfl⟩
  intro nm attrs gn n h
  simp only [Resource.init] at h
  split at h
  case _ => exact Except.noConfusion h
  case _ amap hparse =>
    split at h
    case _ => exact Except.noConfusion h
    case _ pr label attrs2 hpop =>
      split at h
      case _ key r0 t hrev =>
        cases h
        simp only [RNode.label, RNode.key, RNode.resource, RNode.is_data, RNode.module_name]
        rw [hrev]
        refine ⟨rfl, rfl, ?_, ?_⟩
        · simp [Bool.and_eq_true, beq_iff_eq]
        · by_cases h4 : (pySplitSeq "."
              (String.mk ((label.data.drop 1).dropLast))).length = 4
          · simp [h4]
          · simp [h4]
      case _ => exact Except.noConfusion h

theorem c4_resource_label_postprocessing_witness :
    (RNode.mk "x" "R" "\"aws_s3_bucket.my_bucket\"" [] "s3_bucket" "my_bucket"
      false none).key =
    (pySplitSeq "." (String.mk ((((RNode.mk "x" "R" "\"aws_s3_bucket.my_bucket\"" []
      "s3_bucket" "my_bucket" false none).label).data.drop 1).dropLast))).reverse.headD "" :=
  (c4_resource_label_postprocessing.1 "x" "label = \"aws_s3_bucket.my_bucket\"" "R"
    (RNode.mk "x" "R" "\"aws_s3_bucket.my_bucket\"" [] "s3_bucket" "my_bucket" false none)
    rfl).1

/-! ## Claim C5 -/

/-- C5: a line that passes the filter and matches the generic node shape is
always accepted by a typed classifier (the `Resource` matcher *is* the
generic node shape, so "accepted by no classifier" is impossible for such a
line), and processing it never silently drops it: if the line does not
abort the file with a constructor error, the resulting tree holds exactly
one more node. -/
theorem c5_node_line_never_dropped :
    (∀ (line : String) (m : NodeMatch), Node.valid_line line = some m →
      classify_node line ≠ none) ∧
    (∀ (g : Graph) (line : String) (m : NodeMatch) (g' : Graph),
      wanted_line (pyStrip line) = true → Node.valid_line (pyStrip line) = some m →
      processLine g line = .ok g' →
      g'.allNodes.length = g.allNodes.length + 1) := by
  constructor
  · intro line m h
    rcases classify_of_node h with hc | hc <;> simp [hc]
  · intro g line m g' hw hn hok
    rcases processLine_node g line m hw hn with ⟨e, he⟩ | ⟨node, hres, hins⟩
    · rw [he] at hok
      exact Except.noConfusion hok
    · rw [hins] at hok
      injection hok with h2
      subst h2
      have hperm := Graph.insert_allNodes_perm (linePath (pyStrip line)) g g.name (some node)
      have hlen := hperm.length_eq
      simpa [Option.toList] using hlen

theorem c5_node_line_never_dropped_witness :
    classify_node scenarioLine1 ≠ none ∧
    (Graph.mk "main" none [scenarioNode1] [] []).allNodes.length =
      (Graph.init "main").allNodes.length + 1 := by
  constructor
  · exact c5_node_line_never_dropped.1 scenarioLine1
      (NodeMatch.mk "aws_s3_bucket.bucket"
        "label = \"aws_s3_bucket.bucket\", shape = \"box\"") rfl
  · exact c5_node_line_never_dropped.2 (Graph.init "main") scenarioLine1
      (NodeMatch.mk "aws_s3_bucket.bucket"
        "label = \"aws_s3_bucket.bucket\", shape = \"box\"")
      (Graph.mk "main" none [scenarioNode1] [] []) rfl rfl rfl

/-! ## Claim C6 -/

set_option maxRecDepth 10000 in
set_option maxHeartbeats 2000000 in
/-- C6: a serialized scope is the header line with the quoted cluster
identifier, the label line (label falling back to the name), then — blank
lines in between — the child-scope blocks in first-creation order, the
scope's own nodes in insertion order, and the scope's own edges in
insertion order; in the §8 scenario the `net` cluster is therefore nested
before the root's own node line. -/
theorem c6_serializer_layout :
    (∀ g : Graph, Graph.str g =
      ("subgraph \"cluster_" ++ g.name ++ "\" \x7b") ++ "\n" ++
      ("\tlabel = \"" ++ pyOr g.label g.name ++ "\";") ++ "\n" ++
      "" ++ "\n" ++
      ("\t" ++ joinSep "\n\t" (Graph.strList g.modules)) ++ "\n" ++
      "" ++ "\n" ++
      ("\t" ++ joinSep "\n\t" (g.nodes.map RNode.str)) ++ "\n" ++
      "" ++ "\n" ++
      ("\t" ++ joinSep "\n\t" (g.edges.map Edge.str)) ++ "\n" ++
      "\x7d") ∧
    Graph.fromLines "main" [scenarioLine1, scenarioLine2, scenarioLine3] =
      .ok scenarioGraph ∧
    Graph.str scenarioGraph =
      "subgraph \"cluster_main\" \x7b\n\tlabel = \"main\";\n\n\tsubgraph \"cluster_main:net\" \x7b\n\tlabel = \"net\";\n\n\t\n\n\t\"[main] module.net.aws_vpc.main\" [label=<<table border=\"0\"><tr><td><font color=\"green4\" point-size=\"9\">vpc</font></td></tr><tr><td>main</td></tr></table>>,shape=\"box\"]\n\n\t\n\x7d\n\n\t\"[main] aws_s3_bucket.bucket\" [label=<<table border=\"0\"><tr><td><font color=\"red1\" point-size=\"9\">s3_bucket</font></td></tr><tr><td>bucket</td></tr></table>>,shape=\"box\"]\n\n\t\"[main] aws_s3_bucket.bucket\":e -> \"[main] module.net.aws_vpc.main\":w\n\x7d" := by
  refine ⟨?_, rfl, by decide⟩
  intro g
  cases g with
  | mk nm l ns es ms =>
    simp only [Graph.str, Graph.name, Graph.label, Graph.nodes, Graph.edges, Graph.modules,
      joinSep]
    simp only [String.append_assoc]

/-! ## Claim C7 -/

/-- C7: malformed input is fatal, never silently adjusted: a successfully
constructed node certifies that every attribute pair split cleanly into two
components, that the mandatory `label` key was present, and that the label
had at least two dot-separated components; conversely an attribute list
without `=`, one without a `label` key, and a single-component label each
abort the constructor (and, for a full line, the file). -/
theorem c7_malformed_input_fatal :
    (∀ (nm attrs gn : String) (n : RNode), Resource.init nm attrs gn = .ok n →
      (∀ pr ∈ (reSplitSpace ',' attrs).map (fun pair => reSplitSpace '=' pair),
        pr.length = 2) ∧
      (∃ m, parse_attributes attrs = .ok m ∧ m.any (fun p => p.1 == "label") = true) ∧
      2 ≤ (pySplitSeq "." (String.mk ((n.label.data.drop 1).dropLast))).length) ∧
    (Resource.init "x" "shape" "R").toOption = none ∧
    (Resource.init "x" "shape = \"box\"" "R").toOption = none ∧
    (Resource.init "x" "label = \"mybucket\"" "R").toOption = none ∧
    processLine (Graph.init "R") "\"[root] x\" [label = \"mybucket\"]" =
      .error "ValueError: not enough values to unpack (expected 2)" :=
  ⟨fun _ _ _ _ h => Resource.init_ok_wellformed h, rfl, rfl, rfl, rfl⟩

theorem c7_malformed_input_fatal_witness :
    2 ≤ (pySplitSeq "." (String.mk ((((RNode.mk "x" "R" "\"aws_s3_bucket.my_bucket\"" []
      "s3_bucket" "my_bucket" false none).label).data.drop 1).dropLast))).length :=
  (c7_malformed_input_fatal.1 "x" "label = \"aws_s3_bucket.my_bucket\"" "R"
    (RNode.mk "x" "R" "\"aws_s3_bucket.my_bucket\"" [] "s3_bucket" "my_bucket" false none)
    rfl).2.2

/-! ## Claim C8 -/

/-- C8: edge serialization anchors the quoted `[<scope>] <from>` endpoint
east and the quoted `[<scope>] <to>` endpoint west, with the *declaring*
graph's name on both endpoints; the parser extracts the raw endpoint
identifier strings verbatim; and processing an edge line appends an edge
built from those raw strings with the processing graph as its owner. -/
theorem c8_edge_rendering :
    (∀ e : Edge, Edge.str e =
      "\"[" ++ e.graphName ++ "] " ++ e.from_name ++ "\":e -> \"[" ++ e.graphName ++ "] " ++
        e.to_name ++ "\":w") ∧
    (∀ A B : String, (∀ c ∈ A.data, (c != '"') = true) → (∀ c ∈ B.data, (c != '"') = true) →
      Edge.valid_line ("\"[root] " ++ A ++ "\" -> \"[root] " ++ B ++ "\"") =
        some (EdgeMatch.mk A B)) ∧
    (∀ (g : Graph) (line : String) (m : EdgeMatch),
      wanted_line (pyStrip line) = true → Edge.valid_line (pyStrip line) = some m →
      processLine g line = .ok (g.appendEdge (Edge.mk m.from_name m.to_name g.name))) :=
  ⟨fun _ => rfl, Edge.valid_line_roundtrip,
    fun g line m hw he => processLine_edge g line m hw he⟩

theorem c8_edge_rendering_witness :
    Edge.valid_line "\"[root] a\" -> \"[root] b\"" = some (EdgeMatch.mk "a" "b") ∧
    processLine (Graph.init "R") scenarioLine3 =
      .ok ((Graph.init "R").appendEdge
        (Edge.mk "aws_s3_bucket.bucket" "module.net.aws_vpc.main" "R")) := by
  constructor
  · exact c8_edge_rendering.2.1 "a" "b" (by decide) (by decide)
  · exact c8_edge_rendering.2.2 (Graph.init "R") scenarioLine3
      (EdgeMatch.mk "aws_s3_bucket.bucket" "module.net.aws_vpc.main") rfl rfl

/-! ## Claim C9 -/

/-- C9: the line filter is a pure stateless predicate: `wanted_line` is
false exactly when at least one unwanted pattern matches; filtering is
idempotent; and an unwanted line is skipped before any edge or node parsing
is attempted — processing it leaves the graph untouched. -/
theorem c9_line_filter :
    (∀ line : String, wanted_line line = false ↔ ∃ p ∈ unwanted_patterns, p line = true) ∧
    (∀ lines : List String,
      (lines.filter wanted_line).filter wanted_line = lines.filter wanted_line) ∧
    (∀ (g : Graph) (line : String), wanted_line (pyStrip line) = false →
      processLine g line = .ok g) := by
  refine ⟨?_, ?_, ?_⟩
  · intro line
    simp only [wanted_line]
    constructor
    · intro h
      by_cases hany : (unwanted_patterns.any (fun p => p line)) = true
      · exact List.any_eq_true.mp hany
      · rw [if_neg hany] at h
        exact Bool.noConfusion h
    · intro hex
      rw [if_pos (List.any_eq_true.mpr hex)]
  · intro lines
    rw [List.filter_filter]
    simp
  · intro g line h
    exact processLine_unwanted g line h

theorem c9_line_filter_witness :
    wanted_line "\"[root] var.tags\" [label = \"var.tags\"]" = false ∧
    (["\"[root] var.tags\" [label = \"var.tags\"]", "ok"].filter wanted_line).filter
      wanted_line = ["\"[root] var.tags\" [label = \"var.tags\"]", "ok"].filter wanted_line ∧
    processLine (Graph.init "R") "\"[root] root\" -> \"[root] x\"" = .ok (Graph.init "R") := by
  refine ⟨?_, ?_, ?_⟩
  · refine (c9_line_filter.1 "\"[root] var.tags\" [label = \"var.tags\"]").mpr ?_
    refine ⟨fun s => matchFromAnyStart ("var.tags".data.isPrefixOf) s.data, ?_, by decide⟩
    show _ ∈ unwanted_patterns
    unfold unwanted_patterns
    exact List.mem_cons_of_mem _ (List.mem_cons_of_mem _ (List.mem_cons_self _ _))
  · exact c9_line_filter.2.1 ["\"[root] var.tags\" [label = \"var.tags\"]", "ok"]
  · exact c9_line_filter.2.2 (Graph.init "R") "\"[root] root\" -> \"[root] x\"" rfl

/-! ## Claim C10 -/

/-- The node built from `varLine`. -/
def varNode : RNode :=
  RNode.mk "var.foo" "R" "\"var.foo\"" [("shape", "\"note\"")] "var" "foo" false none

/-- A variable declaration line. -/
def varLine : String := "\"[root] var.foo\" [label = \"var.foo\", shape = \"note\"]"

/-- C10: every node-shaped line whose identifier starts with `var.` is
accepted by the `Variable` matcher (with the same capture groups) and
classified as a Variable; the variable's label then undergoes the full
`Resource` post-processing (label `var.foo` gives resource type `var` and
key `foo`) and the node renders with the Resource HTML-table label, not
with its raw label. -/
theorem c10_variable_classification :
    (∀ (line : String) (m : NodeMatch), Node.valid_line line = some m →
      "var.".data.isPrefixOf m.name.data = true →
      Variable.valid_line line = some m ∧
      classify_node line = some (NodeKind.variableKind, m)) ∧
    Graph.fromLines "R" [varLine] = .ok (Graph.mk "R" none [varNode] [] []) ∧
    RNode.str varNode =
      "\"[R] var.foo\" [label=<<table border=\"0\"><tr><td><font color=\"gray40\" point-size=\"9\">var</font></td></tr><tr><td>foo</td></tr></table>>,shape=\"note\"]" ∧
    ¬ (RNode.str varNode = RNode.base_str varNode) := by
  refine ⟨?_, rfl, rfl, by decide⟩
  intro line m h hv
  constructor
  · simp [Variable.valid_line, h, hv]
  · simp [classify_node, Variable.valid_line, h, hv]

theorem c10_variable_classification_witness :
    Variable.valid_line varLine =
      some (NodeMatch.mk "var.foo" "label = \"var.foo\", shape = \"note\"") ∧
    classify_node varLine = some (NodeKind.variableKind,
      NodeMatch.mk "var.foo" "label = \"var.foo\", shape = \"note\"") :=
  c10_variable_classification.1 varLine
    (NodeMatch.mk "var.foo" "label = \"var.foo\", shape = \"note\"") rfl rfl
